import Mathlib

/-!
Verification of the character-tagging pipeline in
src/pipecat/character_processor.py (CharacterTagger, CharacterGate,
TTSSegmentSequencer) against its natural-language specification.

Modelling conventions:
- Python strings are modelled as List Char.
- Each pipecat FrameProcessor is modelled as a pure function from
  (state, frame, direction) to (new state, list of pushed frames with
  their directions), in the order the Python code pushes them.
- The pipecat frame class hierarchy (external to this repository) is
  modelled by the Frame inductive below.  In pipecat's frames.py,
  LLMFullResponseStartFrame and LLMFullResponseEndFrame subclass
  ControlFrame, LLMTextFrame subclasses TextFrame which subclasses
  DataFrame, EndFrame subclasses ControlFrame, and SystemFrame is the
  base of the system/cancellation frames; the repository's own
  CharacterTagFrame and NextCharacterSequenceFrame subclass Frame
  directly.  Hence the check isinstance(frame, (EndFrame, SystemFrame))
  in CharacterGate._should_passthrough_frame is true exactly for the
  EndFrame and SystemFrame constructors below, and for no other frame
  kind appearing in this pipeline.  The SystemFrame constructor stands
  for any instance of a SystemFrame subclass; OtherFrame stands for any
  frame of a kind not otherwise listed (audio frames, other control
  frames, ...), which also fails the isinstance check.
-/

/-- Frame kinds flowing through the pipeline, a closed tagged variant of
the pipecat frame classes used by character_processor.py. -/
inductive Frame where
  | LLMFullResponseStartFrame
  | LLMFullResponseEndFrame
  | LLMTextFrame (text : List Char)
  | EndFrame
  | SystemFrame
  | CharacterTagFrame (character : List Char)
  | NextCharacterSequenceFrame
  | OtherFrame
deriving DecidableEq, Repr

/-- Direction a frame travels in, as in pipecat's FrameDirection. -/
inductive FrameDirection where
  | DOWNSTREAM
  | UPSTREAM
deriving DecidableEq, Repr

/-- The character tag for the narrator voice, the string "AA". -/
def AAtag : List Char := ['A', 'A']

/-- The character tag for the main-character voice, the string "BB". -/
def BBtag : List Char := ['B', 'B']

/-- The characters of a string up to (excluding) the first newline.
Models the fact that the dot in Python's re does not match a newline, so
re.match(r"(.*)(AA|BB)(.*)", text) only ever inspects and captures
characters of the first line of text. -/
def firstLine : List Char → List Char
  | [] => []
  | c :: cs => if c = '\n' then [] else c :: firstLine cs

/-- Semantics of Python's re.match(r"(.*)(AA|BB)(.*)", line) restricted
to a newline-free line: the first group (.*) is greedy, so the tag group
matches at the last position of the line where "AA" or "BB" starts, and
the result is (group1, group2, group3) = (pre, tag, post).  Returns none
when the line contains neither "AA" nor "BB", in which case re.match
returns None. -/
def lastTagSplit : List Char → Option (List Char × List Char × List Char)
  | [] => none
  | c :: cs =>
    match lastTagSplit cs with
    | some (pre, tag, post) => some (c :: pre, tag, post)
    | none =>
      match cs with
      | c2 :: rest =>
        if c = 'A' ∧ c2 = 'A' then some ([], AAtag, rest)
        else if c = 'B' ∧ c2 = 'B' then some ([], BBtag, rest)
        else none
      | [] => none

namespace CharacterTagger

/-- CharacterTagger.Segment: a contiguous run of text attributed to one
character, buffered while held for ordering. -/
structure Segment where
  character : List Char
  text : List Char
  buffered : Bool := false
deriving DecidableEq, Repr

/-- Mutable state of a CharacterTagger instance: current_character and
the segment queue. -/
structure State where
  current_character : List Char
  segments : List Segment
deriving DecidableEq, Repr

/-- State set up by CharacterTagger.__init__: current_character = "AA",
segments = []. -/
def initState : State := { current_character := AAtag, segments := [] }

/-- Models the Python statement self.segments[-1].text += frame.text:
appends text to the last segment of the queue. -/
def updateLast (l : List Segment) (text : List Char) : List Segment :=
  match l with
  | [] => []
  | [s] => [{ s with text := s.text ++ text }]
  | s :: rest => s :: updateLast rest text

/-- CharacterTagger.create_segment: append a new segment for character,
buffered iff the queue is nonempty; when not buffered, immediately push
the character tag frame and a response-start marker. -/
def create_segment (st : State) (character : List Char) :
    State × List (Frame × FrameDirection) :=
  let should_buffer := !st.segments.isEmpty
  let st' := { st with
    segments := st.segments ++ [{ character := character, text := [], buffered := should_buffer }] }
  if should_buffer then
    (st', [])
  else
    (st', [(Frame.CharacterTagFrame character, FrameDirection.DOWNSTREAM),
           (Frame.LLMFullResponseStartFrame, FrameDirection.DOWNSTREAM)])

/-- Models the Python expression self.segments[-1]: the last segment of
the queue, if any. -/
def lastSegment : List Segment → Option Segment
  | [] => none
  | [s] => some s
  | _ :: rest => lastSegment rest

/-- CharacterTagger.push_text: create a default "AA" segment if the
queue is empty; then either push the text downstream (last segment not
buffered) or append it to the last segment's buffer. -/
def push_text (st : State) (text : List Char) :
    State × List (Frame × FrameDirection) :=
  let r := if st.segments.isEmpty then create_segment st AAtag else (st, [])
  match lastSegment r.1.segments with
  | some last =>
    if last.buffered then
      ({ r.1 with segments := updateLast r.1.segments text }, r.2)
    else
      (r.1, r.2 ++ [(Frame.LLMTextFrame text, FrameDirection.DOWNSTREAM)])
  | none => r

/-- CharacterTagger.flush_character_segment: pop the oldest segment (a
no-op on an empty queue); emit just a response-end marker if it was the
live (unbuffered) one, else emit its tag, start marker, full buffered
text and end marker. -/
def flush_character_segment (st : State) :
    State × List (Frame × FrameDirection) :=
  match st.segments with
  | [] => (st, [])
  | segment :: rest =>
    let st' := { st with segments := rest }
    if !segment.buffered then
      (st', [(Frame.LLMFullResponseEndFrame, FrameDirection.DOWNSTREAM)])
    else
      (st', [(Frame.CharacterTagFrame segment.character, FrameDirection.DOWNSTREAM),
             (Frame.LLMFullResponseStartFrame, FrameDirection.DOWNSTREAM),
             (Frame.LLMTextFrame segment.text, FrameDirection.DOWNSTREAM),
             (Frame.LLMFullResponseEndFrame, FrameDirection.DOWNSTREAM)])

/-- CharacterTagger.process_frame.  Response-start resets the queue and
is suppressed; response-end flushes the oldest segment; a
NextCharacterSequenceFrame flushes and then falls through to the generic
forwarding path; a text frame is split by the tag regex; everything else
is forwarded unchanged in its direction. -/
def process_frame (st : State) (frame : Frame) (direction : FrameDirection) :
    State × List (Frame × FrameDirection) :=
  match frame with
  | Frame.LLMFullResponseStartFrame => ({ st with segments := [] }, [])
  | Frame.LLMFullResponseEndFrame => flush_character_segment st
  | Frame.NextCharacterSequenceFrame =>
    let r := flush_character_segment st
    (r.1, r.2 ++ [(frame, direction)])
  | Frame.LLMTextFrame text =>
    match lastTagSplit (firstLine text) with
    | some (pre_text, character, post_text) =>
      let r1 := if pre_text ≠ [] then push_text st pre_text else (st, [])
      let r2 :=
        if character ≠ [] ∧ character ≠ r1.1.current_character then
          create_segment { r1.1 with current_character := character } character
        else (r1.1, [])
      let r3 := if post_text ≠ [] then push_text r2.1 post_text else (r2.1, [])
      (r3.1, r1.2 ++ r2.2 ++ r3.2)
    | none => push_text st text
  | _ => (st, [(frame, direction)])

end CharacterTagger

namespace CharacterGate

/-- Mutable state of a CharacterGate instance: its character and the
boolean open flag (named gate_open here because open is a Lean keyword). -/
structure State where
  character : List Char
  gate_open : Bool
deriving DecidableEq, Repr

/-- CharacterGate._should_passthrough_frame: true when the gate is open,
otherwise true exactly for isinstance(frame, (EndFrame, SystemFrame)). -/
def _should_passthrough_frame (st : State) (frame : Frame) : Bool :=
  if st.gate_open then true
  else
    match frame with
    | Frame.EndFrame => true
    | Frame.SystemFrame => true
    | _ => false

/-- CharacterGate.process_frame: a character tag frame sets the open
flag to (frame.character == self.character); then the frame is forwarded
iff _should_passthrough_frame holds on the updated state. -/
def process_frame (st : State) (frame : Frame) (direction : FrameDirection) :
    State × List (Frame × FrameDirection) :=
  let st1 :=
    match frame with
    | Frame.CharacterTagFrame c => { st with gate_open := decide (c = st.character) }
    | _ => st
  if _should_passthrough_frame st1 frame then (st1, [(frame, direction)])
  else (st1, [])

end CharacterGate

namespace TTSSegmentSequencer

/-- TTSSegmentSequencer.process_frame: on a response-end marker, push a
NextCharacterSequenceFrame upstream, then forward the frame in its own
direction; every other frame is just forwarded. -/
def process_frame (frame : Frame) (direction : FrameDirection) :
    List (Frame × FrameDirection) :=
  (match frame with
   | Frame.LLMFullResponseEndFrame =>
     [(Frame.NextCharacterSequenceFrame, FrameDirection.UPSTREAM)]
   | _ => []) ++ [(frame, direction)]

end TTSSegmentSequencer

/-- Run the CharacterTagger over a list of incoming frames, collecting
all pushed frames in order. -/
def runTagger (st : CharacterTagger.State) :
    List (Frame × FrameDirection) →
    CharacterTagger.State × List (Frame × FrameDirection)
  | [] => (st, [])
  | (f, d) :: rest =>
    let r1 := CharacterTagger.process_frame st f d
    let r2 := runTagger r1.1 rest
    (r2.1, r1.2 ++ r2.2)

/-- Concatenation of a list of character lists. -/
def concatAll (l : List (List Char)) : List Char := l.foldr (· ++ ·) []

/-- Concatenated text of all LLMTextFrames pushed downstream, in push
order. -/
def downstreamTextOut (out : List (Frame × FrameDirection)) : List Char :=
  match out with
  | [] => []
  | (Frame.LLMTextFrame t, FrameDirection.DOWNSTREAM) :: rest => t ++ downstreamTextOut rest
  | _ :: rest => downstreamTextOut rest

/-- Input trace of one full response: a response-start marker, the text
tokens, a response-end marker, then k release signals arriving upstream
from the TTSSegmentSequencer. -/
def responseTrace (ts : List (List Char)) (k : Nat) : List (Frame × FrameDirection) :=
  (Frame.LLMFullResponseStartFrame, FrameDirection.DOWNSTREAM)
    :: ts.map (fun t => (Frame.LLMTextFrame t, FrameDirection.DOWNSTREAM))
    ++ [(Frame.LLMFullResponseEndFrame, FrameDirection.DOWNSTREAM)]
    ++ List.replicate k (Frame.NextCharacterSequenceFrame, FrameDirection.UPSTREAM)

/-- Spec-side definition, following the specification's words for the
round-trip property: the input text with every occurrence of the tag
symbols "AA" and "BB" removed (scanning left to right).  To be compared
with what the code actually strips. -/
def removeTags : List Char → List Char
  | [] => []
  | c :: cs =>
    match cs with
    | c2 :: rest =>
      if c = 'A' ∧ c2 = 'A' then removeTags rest
      else if c = 'B' ∧ c2 = 'B' then removeTags rest
      else c :: removeTags (c2 :: rest)
    | [] => [c]

/-- Code-side per-token strip: the text the Tagger keeps from one token,
namely group1 ++ group3 of the regex match when there is one (anything
on a later line of a matching token is dropped by the regex), and the
whole token otherwise. -/
def stripTags (t : List Char) : List Char :=
  match lastTagSplit (firstLine t) with
  | some (pre, _, post) => pre ++ post
  | none => t

/-- A character list containing no occurrence of "AA" or "BB". -/
def tagFree (t : List Char) : Bool := (lastTagSplit t).isNone

/-- A well-behaved token: no newline, and at most one tag occurrence
(nothing before the tag the regex finds is itself a tag).  On such
tokens the code's strip agrees with the spec's "remove every tag". -/
def goodToken (t : List Char) : Bool :=
  (!decide ('\n' ∈ t)) &&
  (match lastTagSplit t with
   | none => true
   | some (pre, _, _) => tagFree pre)

/-- Concatenated text of all segments currently queued in the Tagger
(the text still owed downstream). -/
def pendingText (st : CharacterTagger.State) : List Char :=
  concatAll (st.segments.map (fun s => s.text))

/-- Invariant of the Tagger queue: every segment after the head is
buffered (only the oldest segment can be live). -/
def tailBuffered (l : List CharacterTagger.Segment) : Prop :=
  ∀ s ∈ l.tail, s.buffered = true

instance tailBufferedDecidable (l : List CharacterTagger.Segment) :
    Decidable (tailBuffered l) :=
  List.decidableBAll (fun s : CharacterTagger.Segment => s.buffered = true) l.tail

/-- Reachable-state fact: an unbuffered (live) segment never accumulates
text in its buffer — its text went downstream directly. -/
def unbufferedEmpty (l : List CharacterTagger.Segment) : Prop :=
  ∀ s ∈ l, s.buffered = false → s.text = []

/-- Both queue invariants together. -/
def WFsegs (l : List CharacterTagger.Segment) : Prop :=
  tailBuffered l ∧ unbufferedEmpty l

/-- All queued segments are buffered (the state after the live segment
of a response has been flushed and held segments remain). -/
def allBuffered (l : List CharacterTagger.Segment) : Prop :=
  ∀ s ∈ l, s.buffered = true

/-- The head of the queue is a buffered (held) segment. -/
def headBuffered (l : List CharacterTagger.Segment) : Bool :=
  match l with
  | [] => false
  | s :: _ => s.buffered

/-- Frame kinds that make up an emitted segment's bracketing and
content: its start marker, its text, and its end marker. -/
def segmentOutputFrame : Frame → Bool
  | Frame.LLMFullResponseStartFrame => true
  | Frame.LLMFullResponseEndFrame => true
  | Frame.LLMTextFrame _ => true
  | _ => false

/-- One optional processing step of the Tagger relating queue shape,
emitted downstream text and pending buffered text: starting from a
well-formed queue the step keeps it well-formed, grows the queue by at
most n segments, and the text it emits downstream followed by the text
still pending equals the previously pending text followed by delta. -/
def StepOk (n : Nat) (st st' : CharacterTagger.State)
    (out : List (Frame × FrameDirection)) (delta : List Char) : Prop :=
  WFsegs st.segments →
    WFsegs st'.segments ∧
    downstreamTextOut out ++ pendingText st' = pendingText st ++ delta ∧
    st'.segments.length ≤ st.segments.length + n

theorem downstreamTextOut_append (o1 o2 : List (Frame × FrameDirection)) :
    downstreamTextOut (o1 ++ o2) = downstreamTextOut o1 ++ downstreamTextOut o2 := by
  induction o1 with
  | nil => rfl
  | cons p rest ih =>
    obtain ⟨f, d⟩ := p
    cases f <;> cases d <;> simp [downstreamTextOut, ih]

theorem runTagger_append (st : CharacterTagger.State) (xs ys : List (Frame × FrameDirection)) :
    runTagger st (xs ++ ys)
      = ((runTagger (runTagger st xs).1 ys).1,
         (runTagger st xs).2 ++ (runTagger (runTagger st xs).1 ys).2) := by
  induction xs generalizing st with
  | nil => simp [runTagger]
  | cons p rest ih =>
    obtain ⟨f, d⟩ := p
    simp [runTagger, ih, List.append_assoc]

theorem flush_segments_tail (st : CharacterTagger.State) :
    (CharacterTagger.flush_character_segment st).1.segments = st.segments.tail := by
  rcases st with ⟨c, segs⟩
  cases segs with
  | nil => rfl
  | cons s rest =>
    simp only [CharacterTagger.flush_character_segment]
    cases s.buffered <;> simp

/-- C7: a release signal (NextCharacterSequenceFrame) reaching the Tagger
while its segment queue is empty is a no-op, not an error: the state is
unchanged and no segment frames are emitted — the signal itself is merely
forwarded onward in its direction of travel. -/
theorem c7_release_on_empty_queue_noop (st : CharacterTagger.State)
    (d : FrameDirection) (h : st.segments = []) :
    CharacterTagger.process_frame st Frame.NextCharacterSequenceFrame d
      = (st, [(Frame.NextCharacterSequenceFrame, d)]) := by
  rcases st with ⟨c, segs⟩
  simp only [CharacterTagger.State.mk.injEq] at h
  subst h
  rfl

theorem c7_witness :
    CharacterTagger.initState.segments = [] ∧
    CharacterTagger.process_frame CharacterTagger.initState
        Frame.NextCharacterSequenceFrame FrameDirection.UPSTREAM
      = (CharacterTagger.initState,
         [(Frame.NextCharacterSequenceFrame, FrameDirection.UPSTREAM)]) :=
  ⟨rfl, c7_release_on_empty_queue_noop CharacterTagger.initState FrameDirection.UPSTREAM rfl⟩

/-- C9: a CharacterGate forwards a CharacterTagFrame downstream exactly
when the frame's character equals the gate's own character (the tag that
opens the gate is delivered to its branch; the tag that closes it is
dropped), and the open flag is set to the comparison's result. -/
theorem c9_gate_forwards_own_tag (st : CharacterGate.State) (c : List Char)
    (d : FrameDirection) :
    CharacterGate.process_frame st (Frame.CharacterTagFrame c) d
      = ({ st with gate_open := decide (c = st.character) },
         if c = st.character then [(Frame.CharacterTagFrame c, d)] else []) := by
  by_cases h : c = st.character <;>
    simp [CharacterGate.process_frame, CharacterGate._should_passthrough_frame, h]

/-- C10: the Tagger does not consume the release signal: processing a
NextCharacterSequenceFrame flushes the oldest outstanding segment (the
queue loses its head) and then forwards the signal itself onward in its
direction of travel, as the last pushed frame. -/
theorem c10_release_signal_forwarded (st : CharacterTagger.State) (d : FrameDirection) :
    CharacterTagger.process_frame st Frame.NextCharacterSequenceFrame d
      = ((CharacterTagger.flush_character_segment st).1,
         (CharacterTagger.flush_character_segment st).2
           ++ [(Frame.NextCharacterSequenceFrame, d)]) ∧
    (CharacterTagger.process_frame st Frame.NextCharacterSequenceFrame d).1.segments
      = st.segments.tail :=
  ⟨rfl, flush_segments_tail st⟩

/-- C8: the Tagger's current_character starts as "AA", is not reset by a
response-start (which only clears the segment queue), and therefore
persists across responses; concretely, a response starting with tag "BB"
right after a response whose last tag was "BB" gets its text attributed
to the default speaker "AA" (the emitted tag frame is "AA", not "BB"). -/
theorem c8_current_character_persists :
    (∀ (st : CharacterTagger.State) (d : FrameDirection),
       CharacterTagger.process_frame st Frame.LLMFullResponseStartFrame d
         = ({ st with segments := [] }, [])) ∧
    CharacterTagger.initState.current_character = AAtag ∧
    (runTagger CharacterTagger.initState
       [(Frame.LLMFullResponseStartFrame, FrameDirection.DOWNSTREAM),
        (Frame.LLMTextFrame "BB hi".data, FrameDirection.DOWNSTREAM),
        (Frame.LLMFullResponseEndFrame, FrameDirection.DOWNSTREAM),
        (Frame.LLMFullResponseStartFrame, FrameDirection.DOWNSTREAM),
        (Frame.LLMTextFrame "BB yo".data, FrameDirection.DOWNSTREAM),
        (Frame.LLMFullResponseEndFrame, FrameDirection.DOWNSTREAM)]).2
      = [(Frame.CharacterTagFrame BBtag, FrameDirection.DOWNSTREAM),
         (Frame.LLMFullResponseStartFrame, FrameDirection.DOWNSTREAM),
         (Frame.LLMTextFrame " hi".data, FrameDirection.DOWNSTREAM),
         (Frame.LLMFullResponseEndFrame, FrameDirection.DOWNSTREAM),
         (Frame.CharacterTagFrame AAtag, FrameDirection.DOWNSTREAM),
         (Frame.LLMFullResponseStartFrame, FrameDirection.DOWNSTREAM),
         (Frame.LLMTextFrame " yo".data, FrameDirection.DOWNSTREAM),
         (Frame.LLMFullResponseEndFrame, FrameDirection.DOWNSTREAM)] :=
  ⟨fun _ _ => rfl, rfl, by decide⟩

/-- C5 counterexample: in the concrete scenario the Tagger never emits
the texts "Hello ", "Hi there" or "Goodbye" claimed by the spec — the
emitted texts carry the space that followed the tag marker, so the claim
is false as stated. -/
theorem c5_counterexample :
    (Frame.LLMTextFrame "Hello ".data, FrameDirection.DOWNSTREAM)
        ∉ (runTagger CharacterTagger.initState
            (responseTrace ["AA Hello ".data, "BB Hi there".data, "AA Goodbye".data] 2)).2 ∧
    (Frame.LLMTextFrame "Hi there".data, FrameDirection.DOWNSTREAM)
        ∉ (runTagger CharacterTagger.initState
            (responseTrace ["AA Hello ".data, "BB Hi there".data, "AA Goodbye".data] 2)).2 ∧
    (Frame.LLMTextFrame "Goodbye".data, FrameDirection.DOWNSTREAM)
        ∉ (runTagger CharacterTagger.initState
            (responseTrace ["AA Hello ".data, "BB Hi there".data, "AA Goodbye".data] 2)).2 := by
  decide

/-- C5 as it holds on the code: the scenario produces exactly three
segments in order — (AA, " Hello ") streamed immediately, (BB, " Hi
there") emitted in full only on the first release signal, (AA,
" Goodbye") emitted in full only on the second — each bracketed by its
own tag/start/end markers; with no release signal only the first
segment's frames appear, with one release signal only the first two. -/
theorem c5_amended_scenario :
    (runTagger CharacterTagger.initState
       (responseTrace ["AA Hello ".data, "BB Hi there".data, "AA Goodbye".data] 2)).2
      = [(Frame.CharacterTagFrame AAtag, FrameDirection.DOWNSTREAM),
         (Frame.LLMFullResponseStartFrame, FrameDirection.DOWNSTREAM),
         (Frame.LLMTextFrame " Hello ".data, FrameDirection.DOWNSTREAM),
         (Frame.LLMFullResponseEndFrame, FrameDirection.DOWNSTREAM),
         (Frame.CharacterTagFrame BBtag, FrameDirection.DOWNSTREAM),
         (Frame.LLMFullResponseStartFrame, FrameDirection.DOWNSTREAM),
         (Frame.LLMTextFrame " Hi there".data, FrameDirection.DOWNSTREAM),
         (Frame.LLMFullResponseEndFrame, FrameDirection.DOWNSTREAM),
         (Frame.NextCharacterSequenceFrame, FrameDirection.UPSTREAM),
         (Frame.CharacterTagFrame AAtag, FrameDirection.DOWNSTREAM),
         (Frame.LLMFullResponseStartFrame, FrameDirection.DOWNSTREAM),
         (Frame.LLMTextFrame " Goodbye".data, FrameDirection.DOWNSTREAM),
         (Frame.LLMFullResponseEndFrame, FrameDirection.DOWNSTREAM),
         (Frame.NextCharacterSequenceFrame, FrameDirection.UPSTREAM)] ∧
    (runTagger CharacterTagger.initState
       (responseTrace ["AA Hello ".data, "BB Hi there".data, "AA Goodbye".data] 0)).2
      = [(Frame.CharacterTagFrame AAtag, FrameDirection.DOWNSTREAM),
         (Frame.LLMFullResponseStartFrame, FrameDirection.DOWNSTREAM),
         (Frame.LLMTextFrame " Hello ".data, FrameDirection.DOWNSTREAM),
         (Frame.LLMFullResponseEndFrame, FrameDirection.DOWNSTREAM)] ∧
    (runTagger CharacterTagger.initState
       (responseTrace ["AA Hello ".data, "BB Hi there".data, "AA Goodbye".data] 1)).2
      = [(Frame.CharacterTagFrame AAtag, FrameDirection.DOWNSTREAM),
         (Frame.LLMFullResponseStartFrame, FrameDirection.DOWNSTREAM),
         (Frame.LLMTextFrame " Hello ".data, FrameDirection.DOWNSTREAM),
         (Frame.LLMFullResponseEndFrame, FrameDirection.DOWNSTREAM),
         (Frame.CharacterTagFrame BBtag, FrameDirection.DOWNSTREAM),
         (Frame.LLMFullResponseStartFrame, FrameDirection.DOWNSTREAM),
         (Frame.LLMTextFrame " Hi there".data, FrameDirection.DOWNSTREAM),
         (Frame.LLMFullResponseEndFrame, FrameDirection.DOWNSTREAM),
         (Frame.NextCharacterSequenceFrame, FrameDirection.UPSTREAM)] := by
  refine ⟨by decide, by decide, by decide⟩

/-- C2 counterexample: a closed Gate does not forward the structural
response-start and response-end markers — in pipecat they are
ControlFrames, not EndFrame or SystemFrame instances, so the isinstance
passthrough check rejects them; the claim that a closed gate always
forwards them is false. -/
theorem c2_counterexample :
    (CharacterGate.process_frame ⟨AAtag, false⟩ Frame.LLMFullResponseStartFrame
        FrameDirection.DOWNSTREAM).2 = [] ∧
    (CharacterGate.process_frame ⟨AAtag, false⟩ Frame.LLMFullResponseEndFrame
        FrameDirection.DOWNSTREAM).2 = [] := by
  decide

/-- C2 as it holds on the code: a closed Gate forwards a frame if and
only if it is an EndFrame, a SystemFrame, or the CharacterTagFrame
bearing the gate's own character (which opens the gate); in particular a
closed gate never forwards a text frame, and it drops response-start and
response-end markers. -/
theorem c2_amended_gate_filter (st : CharacterGate.State) (f : Frame)
    (d : FrameDirection) (h : st.gate_open = false) :
    ((CharacterGate.process_frame st f d).2 = [(f, d)]
       ∨ (CharacterGate.process_frame st f d).2 = []) ∧
    ((CharacterGate.process_frame st f d).2 = [(f, d)] ↔
       (f = Frame.EndFrame ∨ f = Frame.SystemFrame
          ∨ f = Frame.CharacterTagFrame st.character)) := by
  cases f
  case CharacterTagFrame c =>
    by_cases hc : c = st.character <;>
      simp [CharacterGate.process_frame, CharacterGate._should_passthrough_frame, h, hc]
  all_goals
    simp [CharacterGate.process_frame, CharacterGate._should_passthrough_frame, h]

theorem c2_witness :
    (⟨AAtag, false⟩ : CharacterGate.State).gate_open = false ∧
    (((CharacterGate.process_frame ⟨AAtag, false⟩ (Frame.LLMTextFrame ['h', 'i'])
          FrameDirection.DOWNSTREAM).2
        = [(Frame.LLMTextFrame ['h', 'i'], FrameDirection.DOWNSTREAM)]
       ∨ (CharacterGate.process_frame ⟨AAtag, false⟩ (Frame.LLMTextFrame ['h', 'i'])
            FrameDirection.DOWNSTREAM).2 = []) ∧
     ((CharacterGate.process_frame ⟨AAtag, false⟩ (Frame.LLMTextFrame ['h', 'i'])
          FrameDirection.DOWNSTREAM).2
        = [(Frame.LLMTextFrame ['h', 'i'], FrameDirection.DOWNSTREAM)] ↔
       (Frame.LLMTextFrame ['h', 'i'] = Frame.EndFrame
          ∨ Frame.LLMTextFrame ['h', 'i'] = Frame.SystemFrame
          ∨ Frame.LLMTextFrame ['h', 'i']
              = Frame.CharacterTagFrame (⟨AAtag, false⟩ : CharacterGate.State).character))) :=
  ⟨rfl, c2_amended_gate_filter ⟨AAtag, false⟩ (Frame.LLMTextFrame ['h', 'i'])
      FrameDirection.DOWNSTREAM rfl⟩

theorem create_segment_current (st : CharacterTagger.State) (ch : List Char) :
    (CharacterTagger.create_segment st ch).1.current_character = st.current_character := by
  simp only [CharacterTagger.create_segment]
  split <;> rfl

theorem tag_token_eval (st : CharacterTagger.State) (c : List Char)
    (d : FrameDirection) (h : c = AAtag ∨ c = BBtag) :
    CharacterTagger.process_frame st (Frame.LLMTextFrame c) d
      = if c = st.current_character then (st, [])
        else CharacterTagger.create_segment { st with current_character := c } c := by
  rcases h with h | h <;> subst h
  · have hs : lastTagSplit (firstLine AAtag) = some ([], AAtag, []) := by decide
    have hne : AAtag ≠ [] := by decide
    simp only [CharacterTagger.process_frame, hs]
    by_cases hc : AAtag = st.current_character
    · simp [hc]
    · simp [hne, hc]
  · have hs : lastTagSplit (firstLine BBtag) = some ([], BBtag, []) := by decide
    have hne : BBtag ≠ [] := by decide
    simp only [CharacterTagger.process_frame, hs]
    by_cases hc : BBtag = st.current_character
    · simp [hc]
    · simp [hne, hc]

/-- C6: two consecutive tag tokens for the same speaker never create a
new segment: after processing a tag token, processing the same tag token
again leaves the Tagger's state completely unchanged and emits nothing. -/
theorem c6_repeated_tag_is_noop (st : CharacterTagger.State) (c : List Char)
    (d1 d2 : FrameDirection) (h : c = AAtag ∨ c = BBtag) :
    CharacterTagger.process_frame
        (CharacterTagger.process_frame st (Frame.LLMTextFrame c) d1).1
        (Frame.LLMTextFrame c) d2
      = ((CharacterTagger.process_frame st (Frame.LLMTextFrame c) d1).1, []) := by
  have h1 := tag_token_eval st c d1 h
  have hcur : (CharacterTagger.process_frame st (Frame.LLMTextFrame c) d1).1.current_character = c := by
    rw [h1]
    by_cases hc : c = st.current_character
    · simp [hc]
    · simp [hc, create_segment_current]
  have h2 := tag_token_eval (CharacterTagger.process_frame st (Frame.LLMTextFrame c) d1).1 c d2 h
  rw [h2, if_pos hcur.symm]

theorem c6_witness :
    (BBtag = AAtag ∨ BBtag = BBtag) ∧
    CharacterTagger.process_frame
        (CharacterTagger.process_frame CharacterTagger.initState
            (Frame.LLMTextFrame BBtag) FrameDirection.DOWNSTREAM).1
        (Frame.LLMTextFrame BBtag) FrameDirection.DOWNSTREAM
      = ((CharacterTagger.process_frame CharacterTagger.initState
            (Frame.LLMTextFrame BBtag) FrameDirection.DOWNSTREAM).1, []) :=
  ⟨Or.inr rfl, c6_repeated_tag_is_noop CharacterTagger.initState BBtag
      FrameDirection.DOWNSTREAM FrameDirection.DOWNSTREAM (Or.inr rfl)⟩

theorem lastSegment_mem :
    ∀ {l : List CharacterTagger.Segment} {x}, CharacterTagger.lastSegment l = some x → x ∈ l := by
  intro l
  induction l with
  | nil => intro x h; cases h
  | cons s rest ih =>
    intro x h
    cases rest with
    | nil =>
      simp only [CharacterTagger.lastSegment, Option.some.injEq] at h
      subst h
      exact List.mem_singleton_self _
    | cons y ys =>
      have he : CharacterTagger.lastSegment (s :: y :: ys) = CharacterTagger.lastSegment (y :: ys) := rfl
      rw [he] at h
      exact List.mem_cons_of_mem s (ih h)

theorem lastSegment_isSome :
    ∀ {l : List CharacterTagger.Segment}, l ≠ [] → ∃ x, CharacterTagger.lastSegment l = some x := by
  intro l
  induction l with
  | nil => intro h; exact absurd rfl h
  | cons s rest ih =>
    intro _
    cases rest with
    | nil => exact ⟨s, rfl⟩
    | cons y ys =>
      obtain ⟨x, hx⟩ := ih (List.cons_ne_nil y ys)
      exact ⟨x, hx⟩

theorem tailBuffered_tail {l : List CharacterTagger.Segment} (h : tailBuffered l) :
    tailBuffered l.tail :=
  fun s hs => h s (List.mem_of_mem_tail hs)

theorem lastSegment_unbuffered_singleton :
    ∀ {l : List CharacterTagger.Segment} {x}, tailBuffered l →
      CharacterTagger.lastSegment l = some x → x.buffered = false → l = [x] := by
  intro l
  induction l with
  | nil => intro x _ h; cases h
  | cons s rest ih =>
    intro x ht h hb
    cases rest with
    | nil =>
      simp only [CharacterTagger.lastSegment, Option.some.injEq] at h
      subst h
      rfl
    | cons y ys =>
      have he : CharacterTagger.lastSegment (s :: y :: ys) = CharacterTagger.lastSegment (y :: ys) := rfl
      rw [he] at h
      have hx : x ∈ y :: ys := lastSegment_mem h
      have := ht x hx
      rw [this] at hb
      cases hb

theorem updateLast_allBuffered :
    ∀ {l : List CharacterTagger.Segment} (t : List Char), allBuffered l →
      allBuffered (CharacterTagger.updateLast l t) := by
  intro l
  induction l with
  | nil => intro t _ s hs; cases hs
  | cons a rest ih =>
    intro t h s hs
    cases rest with
    | nil =>
      simp only [CharacterTagger.updateLast, List.mem_singleton] at hs
      subst hs
      exact h a (List.mem_cons_self a [])
    | cons y ys =>
      have he : CharacterTagger.updateLast (a :: y :: ys) t = a :: CharacterTagger.updateLast (y :: ys) t := rfl
      rw [he] at hs
      rcases List.mem_cons.mp hs with hs | hs
      · subst hs; exact h s (List.mem_cons_self s (y :: ys))
      · exact ih t (fun z hz => h z (List.mem_cons_of_mem a hz)) s hs

theorem updateLast_tailBuffered :
    ∀ {l : List CharacterTagger.Segment} (t : List Char), tailBuffered l →
      tailBuffered (CharacterTagger.updateLast l t) := by
  intro l
  cases l with
  | nil => intro t _ s hs; cases hs
  | cons a rest =>
    intro t h s hs
    cases rest with
    | nil => simp only [CharacterTagger.updateLast, List.tail_cons] at hs; cases hs
    | cons y ys =>
      have he : CharacterTagger.updateLast (a :: y :: ys) t = a :: CharacterTagger.updateLast (y :: ys) t := rfl
      rw [he, List.tail_cons] at hs
      exact updateLast_allBuffered t (fun z hz => h z hz) s hs

theorem updateLast_unbufferedEmpty :
    ∀ {l : List CharacterTagger.Segment} {x} (t : List Char), unbufferedEmpty l →
      CharacterTagger.lastSegment l = some x → x.buffered = true →
      unbufferedEmpty (CharacterTagger.updateLast l t) := by
  intro l
  induction l with
  | nil => intro x t _ h; cases h
  | cons a rest ih =>
    intro x t hu hl hb s hs hsb
    cases rest with
    | nil =>
      simp only [CharacterTagger.lastSegment, Option.some.injEq] at hl
      subst hl
      simp only [CharacterTagger.updateLast, List.mem_singleton] at hs
      subst hs
      simp only at hsb
      rw [hsb] at hb
      cases hb
    | cons y ys =>
      have he : CharacterTagger.updateLast (a :: y :: ys) t = a :: CharacterTagger.updateLast (y :: ys) t := rfl
      rw [he] at hs
      have hl' : CharacterTagger.lastSegment (y :: ys) = some x := hl
      rcases List.mem_cons.mp hs with hs | hs
      · subst hs; exact hu s (List.mem_cons_self s (y :: ys)) hsb
      · exact ih t (fun z hz => hu z (List.mem_cons_of_mem a hz)) hl' hb s hs hsb

theorem updateLast_length (t : List Char) :
    ∀ (l : List CharacterTagger.Segment), (CharacterTagger.updateLast l t).length = l.length := by
  intro l
  induction l with
  | nil => rfl
  | cons a rest ih =>
    cases rest with
    | nil => rfl
    | cons y ys =>
      have he : CharacterTagger.updateLast (a :: y :: ys) t = a :: CharacterTagger.updateLast (y :: ys) t := rfl
      rw [he, List.length_cons, List.length_cons, ih]

theorem updateLast_ne_nil {l : List CharacterTagger.Segment} (h : l ≠ []) (t : List Char) :
    CharacterTagger.updateLast l t ≠ [] := by
  cases l with
  | nil => exact absurd rfl h
  | cons a rest =>
    cases rest with
    | nil => exact List.cons_ne_nil _ _
    | cons y ys => exact List.cons_ne_nil _ _

theorem concatAll_append (l1 l2 : List (List Char)) :
    concatAll (l1 ++ l2) = concatAll l1 ++ concatAll l2 := by
  induction l1 with
  | nil => rfl
  | cons a rest ih =>
    have h1 : concatAll ((a :: rest) ++ l2) = a ++ concatAll (rest ++ l2) := rfl
    have h2 : concatAll (a :: rest) = a ++ concatAll rest := rfl
    rw [h1, h2, ih, List.append_assoc]

theorem updateLast_pending :
    ∀ {l : List CharacterTagger.Segment} (t : List Char), l ≠ [] →
      concatAll ((CharacterTagger.updateLast l t).map (fun s => s.text))
        = concatAll (l.map (fun s => s.text)) ++ t := by
  intro l
  induction l with
  | nil => intro t h; exact absurd rfl h
  | cons a rest ih =>
    intro t _
    cases rest with
    | nil => simp [CharacterTagger.updateLast, concatAll, List.foldr]
    | cons y ys =>
      have he : CharacterTagger.updateLast (a :: y :: ys) t = a :: CharacterTagger.updateLast (y :: ys) t := rfl
      rw [he]
      simp only [List.map_cons, concatAll, List.foldr]
      have := ih t (List.cons_ne_nil y ys)
      simp only [concatAll] at this
      rw [this]
      simp [List.foldr, List.append_assoc]

theorem tailBuffered_append_buffered {l : List CharacterTagger.Segment}
    (h : tailBuffered l) {b : CharacterTagger.Segment} (hb : b.buffered = true) :
    tailBuffered (l ++ [b]) := by
  cases l with
  | nil => intro s hs; simp at hs
  | cons a rest =>
    intro s hs
    simp only [List.cons_append, List.tail_cons] at hs
    rcases List.mem_append.mp hs with hs | hs
    · exact h s hs
    · rw [List.mem_singleton.mp hs]; exact hb

theorem allBuffered_append_buffered {l : List CharacterTagger.Segment}
    (h : allBuffered l) {b : CharacterTagger.Segment} (hb : b.buffered = true) :
    allBuffered (l ++ [b]) := by
  intro s hs
  rcases List.mem_append.mp hs with hs | hs
  · exact h s hs
  · rw [List.mem_singleton.mp hs]; exact hb

theorem create_segment_eq_nil (st : CharacterTagger.State) (ch : List Char)
    (h : st.segments = []) :
    CharacterTagger.create_segment st ch
      = ({ st with segments := [⟨ch, [], false⟩] },
         [(Frame.CharacterTagFrame ch, FrameDirection.DOWNSTREAM),
          (Frame.LLMFullResponseStartFrame, FrameDirection.DOWNSTREAM)]) := by
  rcases st with ⟨c, segs⟩
  simp only [CharacterTagger.State.mk.injEq] at h
  subst h
  rfl

theorem create_segment_eq_cons (st : CharacterTagger.State) (ch : List Char)
    (h : st.segments ≠ []) :
    CharacterTagger.create_segment st ch
      = ({ st with segments := st.segments ++ [⟨ch, [], true⟩] }, []) := by
  rcases st with ⟨c, segs⟩
  cases segs with
  | nil => exact absurd rfl h
  | cons a rest => rfl

theorem push_text_eq_nil (st : CharacterTagger.State) (t : List Char)
    (h : st.segments = []) :
    CharacterTagger.push_text st t
      = ({ st with segments := [⟨AAtag, [], false⟩] },
         [(Frame.CharacterTagFrame AAtag, FrameDirection.DOWNSTREAM),
          (Frame.LLMFullResponseStartFrame, FrameDirection.DOWNSTREAM),
          (Frame.LLMTextFrame t, FrameDirection.DOWNSTREAM)]) := by
  rcases st with ⟨c, segs⟩
  simp only [CharacterTagger.State.mk.injEq] at h
  subst h
  rfl

theorem push_text_eq_buffered (st : CharacterTagger.State) (t : List Char)
    {x : CharacterTagger.Segment} (h : CharacterTagger.lastSegment st.segments = some x)
    (hb : x.buffered = true) :
    CharacterTagger.push_text st t
      = ({ st with segments := CharacterTagger.updateLast st.segments t }, []) := by
  have hne : st.segments ≠ [] := by
    intro e; rw [e] at h; cases h
  have hie : st.segments.isEmpty = false := by
    cases hs : st.segments with
    | nil => exact absurd hs hne
    | cons a rest => rfl
  simp [CharacterTagger.push_text, hie, h, hb]

theorem push_text_eq_unbuffered (st : CharacterTagger.State) (t : List Char)
    {x : CharacterTagger.Segment} (h : CharacterTagger.lastSegment st.segments = some x)
    (hb : x.buffered = false) :
    CharacterTagger.push_text st t
      = (st, [(Frame.LLMTextFrame t, FrameDirection.DOWNSTREAM)]) := by
  have hne : st.segments ≠ [] := by
    intro e; rw [e] at h; cases h
  have hie : st.segments.isEmpty = false := by
    cases hs : st.segments with
    | nil => exact absurd hs hne
    | cons a rest => rfl
  simp [CharacterTagger.push_text, hie, h, hb]

theorem tailBuffered_create_segment (st : CharacterTagger.State) (ch : List Char)
    (h : tailBuffered st.segments) :
    tailBuffered (CharacterTagger.create_segment st ch).1.segments := by
  cases hs : st.segments with
  | nil =>
    rw [create_segment_eq_nil st ch hs]
    intro s hsmem
    simp at hsmem
  | cons a rest =>
    rw [create_segment_eq_cons st ch (by rw [hs]; exact List.cons_ne_nil a rest)]
    exact tailBuffered_append_buffered h rfl

theorem tailBuffered_push_text (st : CharacterTagger.State) (t : List Char)
    (h : tailBuffered st.segments) :
    tailBuffered (CharacterTagger.push_text st t).1.segments := by
  cases hs : st.segments with
  | nil =>
    rw [push_text_eq_nil st t hs]
    intro s hsmem
    simp at hsmem
  | cons a rest =>
    have hne : st.segments ≠ [] := by rw [hs]; exact List.cons_ne_nil a rest
    obtain ⟨x, hx⟩ := lastSegment_isSome hne
    cases hb : x.buffered with
    | false =>
      rw [push_text_eq_unbuffered st t hx hb]
      exact h
    | true =>
      rw [push_text_eq_buffered st t hx hb]
      exact updateLast_tailBuffered t h

theorem if_push_tailBuffered (st : CharacterTagger.State) (x : List Char)
    (h : tailBuffered st.segments) :
    tailBuffered ((if x ≠ [] then CharacterTagger.push_text st x else (st, [])).1).segments := by
  by_cases hx : x ≠ []
  · rw [if_pos hx]; exact tailBuffered_push_text st x h
  · rw [if_neg hx]; exact h

theorem if_create_tailBuffered (st : CharacterTagger.State) (tg : List Char)
    (c : Prop) [Decidable c] (h : tailBuffered st.segments) :
    tailBuffered ((if c then
        CharacterTagger.create_segment { st with current_character := tg } tg
      else (st, [])).1).segments := by
  by_cases hc : c
  · rw [if_pos hc]
    exact tailBuffered_create_segment { st with current_character := tg } tg h
  · rw [if_neg hc]; exact h

/-- C4: at most one segment in the Tagger's queue is live — only the head
can be unbuffered, every later segment is buffered — and this invariant
holds initially and is preserved by processing any frame (response-start,
token, response-end, release signal, or anything else). -/
theorem c4_only_head_live (st : CharacterTagger.State) (f : Frame) (d : FrameDirection)
    (h : tailBuffered st.segments) :
    tailBuffered CharacterTagger.initState.segments ∧
    tailBuffered (CharacterTagger.process_frame st f d).1.segments := by
  constructor
  · intro s hs; exact absurd hs (List.not_mem_nil s)
  · cases f with
    | LLMFullResponseStartFrame =>
      intro s hs; exact absurd hs (List.not_mem_nil s)
    | LLMFullResponseEndFrame =>
      show tailBuffered (CharacterTagger.flush_character_segment st).1.segments
      rw [flush_segments_tail st]
      exact tailBuffered_tail h
    | NextCharacterSequenceFrame =>
      show tailBuffered (CharacterTagger.flush_character_segment st).1.segments
      rw [flush_segments_tail st]
      exact tailBuffered_tail h
    | LLMTextFrame t =>
      rcases hsplit : lastTagSplit (firstLine t) with _ | ⟨pre, tg, post⟩
      · simp only [CharacterTagger.process_frame, hsplit]
        exact tailBuffered_push_text st t h
      · simp only [CharacterTagger.process_frame, hsplit]
        exact if_push_tailBuffered _ post
          (if_create_tailBuffered _ tg _ (if_push_tailBuffered st pre h))
    | EndFrame => exact h
    | SystemFrame => exact h
    | CharacterTagFrame c => exact h
    | OtherFrame => exact h

theorem c4_witness :
    tailBuffered
        ((⟨AAtag, [⟨AAtag, [], false⟩, ⟨BBtag, ['h'], true⟩]⟩ :
            CharacterTagger.State)).segments ∧
    (tailBuffered CharacterTagger.initState.segments ∧
     tailBuffered (CharacterTagger.process_frame
        ⟨AAtag, [⟨AAtag, [], false⟩, ⟨BBtag, ['h'], true⟩]⟩
        (Frame.LLMTextFrame "AA more".data) FrameDirection.DOWNSTREAM).1.segments) :=
  ⟨by decide,
   c4_only_head_live ⟨AAtag, [⟨AAtag, [], false⟩, ⟨BBtag, ['h'], true⟩]⟩
     (Frame.LLMTextFrame "AA more".data) FrameDirection.DOWNSTREAM (by decide)⟩

theorem allBuffered_of_head {l : List CharacterTagger.Segment}
    (h1 : tailBuffered l) (h2 : headBuffered l = true) : allBuffered l := by
  cases l with
  | nil => simp [headBuffered] at h2
  | cons s rest =>
    intro x hx
    rcases List.mem_cons.mp hx with hx | hx
    · subst hx; exact h2
    · exact h1 x hx

theorem ne_nil_of_headBuffered {l : List CharacterTagger.Segment}
    (h : headBuffered l = true) : l ≠ [] := by
  cases l with
  | nil => simp [headBuffered] at h
  | cons s rest => exact List.cons_ne_nil s rest

theorem push_text_silent (st : CharacterTagger.State) (t : List Char)
    (h : allBuffered st.segments) (hne : st.segments ≠ []) :
    (CharacterTagger.push_text st t).2 = [] ∧
    allBuffered (CharacterTagger.push_text st t).1.segments ∧
    (CharacterTagger.push_text st t).1.segments ≠ [] := by
  obtain ⟨x, hx⟩ := lastSegment_isSome hne
  have hb : x.buffered = true := h x (lastSegment_mem hx)
  rw [push_text_eq_buffered st t hx hb]
  exact ⟨rfl, updateLast_allBuffered t h, updateLast_ne_nil hne t⟩

theorem create_segment_silent (st : CharacterTagger.State) (ch : List Char)
    (h : allBuffered st.segments) (hne : st.segments ≠ []) :
    (CharacterTagger.create_segment st ch).2 = [] ∧
    allBuffered (CharacterTagger.create_segment st ch).1.segments ∧
    (CharacterTagger.create_segment st ch).1.segments ≠ [] := by
  rw [create_segment_eq_cons st ch hne]
  exact ⟨rfl, allBuffered_append_buffered h rfl, by simp⟩

theorem if_push_silent (st : CharacterTagger.State) (x : List Char)
    (h : allBuffered st.segments) (hne : st.segments ≠ []) :
    (if x ≠ [] then CharacterTagger.push_text st x else (st, [])).2 = [] ∧
    allBuffered ((if x ≠ [] then CharacterTagger.push_text st x else (st, [])).1).segments ∧
    ((if x ≠ [] then CharacterTagger.push_text st x else (st, [])).1).segments ≠ [] := by
  by_cases hx : x ≠ []
  · rw [if_pos hx]; exact push_text_silent st x h hne
  · rw [if_neg hx]; exact ⟨rfl, h, hne⟩

theorem if_create_silent (st : CharacterTagger.State) (tg : List Char)
    (c : Prop) [Decidable c] (h : allBuffered st.segments) (hne : st.segments ≠ []) :
    (if c then CharacterTagger.create_segment { st with current_character := tg } tg
      else (st, [])).2 = [] ∧
    allBuffered ((if c then
        CharacterTagger.create_segment { st with current_character := tg } tg
      else (st, [])).1).segments ∧
    ((if c then CharacterTagger.create_segment { st with current_character := tg } tg
      else (st, [])).1).segments ≠ [] := by
  by_cases hc : c
  · rw [if_pos hc]
    exact create_segment_silent { st with current_character := tg } tg h hne
  · rw [if_neg hc]; exact ⟨rfl, h, hne⟩

theorem text_step_silent (st : CharacterTagger.State) (t : List Char) (d : FrameDirection)
    (h : allBuffered st.segments) (hne : st.segments ≠ []) :
    (CharacterTagger.process_frame st (Frame.LLMTextFrame t) d).2 = [] := by
  rcases hsplit : lastTagSplit (firstLine t) with _ | ⟨pre, tg, post⟩
  · simp only [CharacterTagger.process_frame, hsplit]
    exact (push_text_silent st t h hne).1
  · simp only [CharacterTagger.process_frame, hsplit]
    obtain ⟨o1, a1, n1⟩ := if_push_silent st pre h hne
    obtain ⟨o2, a2, n2⟩ :=
      if_create_silent ((if pre ≠ [] then CharacterTagger.push_text st pre else (st, [])).1) tg
        (tg ≠ [] ∧
          tg ≠ ((if pre ≠ [] then CharacterTagger.push_text st pre else (st, [])).1).current_character)
        a1 n1
    obtain ⟨o3, a3, n3⟩ := if_push_silent _ post a2 n2
    rw [o1, o2, o3]
    rfl

/-- C1: the ordering protocol behind the pipeline's principal guarantee.
While the Tagger's oldest queued segment is a held (buffered) one, no
frame other than a release signal or a response-end marker can make the
Tagger emit any segment start marker, segment text, or segment end
marker downstream — a held segment is only released by a flush trigger;
flushing always pops the oldest segment (FIFO); and the
TTSSegmentSequencer sends a release signal upstream exactly when a
segment end marker passes through it.  Together these imply that each
held segment is emitted only after the Sequencer has observed the
preceding segment's end marker and sent the release. -/
theorem c1_held_segment_release_protocol (st : CharacterTagger.State) (f : Frame)
    (d : FrameDirection)
    (h1 : tailBuffered st.segments) (h2 : headBuffered st.segments = true)
    (h3 : f ≠ Frame.NextCharacterSequenceFrame) (h4 : f ≠ Frame.LLMFullResponseEndFrame) :
    (∀ p ∈ (CharacterTagger.process_frame st f d).2,
       p.2 = FrameDirection.DOWNSTREAM → segmentOutputFrame p.1 = false) ∧
    (∀ st' : CharacterTagger.State,
       (CharacterTagger.flush_character_segment st').1.segments = st'.segments.tail) ∧
    (∀ (g : Frame) (dg : FrameDirection),
       (TTSSegmentSequencer.process_frame g dg
           = [(Frame.NextCharacterSequenceFrame, FrameDirection.UPSTREAM), (g, dg)]
          ∧ g = Frame.LLMFullResponseEndFrame)
       ∨ (TTSSegmentSequencer.process_frame g dg = [(g, dg)]
          ∧ g ≠ Frame.LLMFullResponseEndFrame)) := by
  refine ⟨?_, flush_segments_tail, ?_⟩
  · cases f with
    | NextCharacterSequenceFrame => exact absurd rfl h3
    | LLMFullResponseEndFrame => exact absurd rfl h4
    | LLMFullResponseStartFrame =>
      intro p hp
      exact absurd hp (List.not_mem_nil p)
    | LLMTextFrame t =>
      have hz := text_step_silent st t d (allBuffered_of_head h1 h2) (ne_nil_of_headBuffered h2)
      intro p hp
      rw [hz] at hp
      exact absurd hp (List.not_mem_nil p)
    | CharacterTagFrame c =>
      intro p hp
      simp only [CharacterTagger.process_frame, List.mem_singleton] at hp
      subst hp
      intro _
      rfl
    | EndFrame =>
      intro p hp
      simp only [CharacterTagger.process_frame, List.mem_singleton] at hp
      subst hp
      intro _
      rfl
    | SystemFrame =>
      intro p hp
      simp only [CharacterTagger.process_frame, List.mem_singleton] at hp
      subst hp
      intro _
      rfl
    | OtherFrame =>
      intro p hp
      simp only [CharacterTagger.process_frame, List.mem_singleton] at hp
      subst hp
      intro _
      rfl
  · intro g dg
    cases g <;> simp [TTSSegmentSequencer.process_frame]

theorem c1_witness :
    tailBuffered ((⟨AAtag, [⟨BBtag, ['x'], true⟩]⟩ : CharacterTagger.State)).segments ∧
    headBuffered ((⟨AAtag, [⟨BBtag, ['x'], true⟩]⟩ : CharacterTagger.State)).segments = true ∧
    Frame.OtherFrame ≠ Frame.NextCharacterSequenceFrame ∧
    Frame.OtherFrame ≠ Frame.LLMFullResponseEndFrame ∧
    ((∀ p ∈ (CharacterTagger.process_frame ⟨AAtag, [⟨BBtag, ['x'], true⟩]⟩
          Frame.OtherFrame FrameDirection.DOWNSTREAM).2,
        p.2 = FrameDirection.DOWNSTREAM → segmentOutputFrame p.1 = false) ∧
     (∀ st' : CharacterTagger.State,
        (CharacterTagger.flush_character_segment st').1.segments = st'.segments.tail) ∧
     (∀ (g : Frame) (dg : FrameDirection),
        (TTSSegmentSequencer.process_frame g dg
            = [(Frame.NextCharacterSequenceFrame, FrameDirection.UPSTREAM), (g, dg)]
           ∧ g = Frame.LLMFullResponseEndFrame)
        ∨ (TTSSegmentSequencer.process_frame g dg = [(g, dg)]
           ∧ g ≠ Frame.LLMFullResponseEndFrame))) :=
  ⟨by decide, rfl, by decide, by decide,
   c1_held_segment_release_protocol ⟨AAtag, [⟨BBtag, ['x'], true⟩]⟩
     Frame.OtherFrame FrameDirection.DOWNSTREAM (by decide) rfl (by decide) (by decide)⟩

theorem stepOk_id (n : Nat) (st : CharacterTagger.State) : StepOk n st st [] [] := by
  intro h
  exact ⟨h, by simp [downstreamTextOut], Nat.le_add_right _ _⟩

theorem stepOk_mono {m n : Nat} (h : m ≤ n) {st st' : CharacterTagger.State}
    {out : List (Frame × FrameDirection)} {delta : List Char}
    (hs : StepOk m st st' out delta) : StepOk n st st' out delta := by
  intro hw
  obtain ⟨w, e, len⟩ := hs hw
  exact ⟨w, e, le_trans len (Nat.add_le_add_left h _)⟩

theorem stepOk_comp {m n : Nat} {st st1 st2 : CharacterTagger.State}
    {o1 o2 : List (Frame × FrameDirection)} {delta1 delta2 : List Char}
    (h1 : StepOk m st st1 o1 delta1) (h2 : StepOk n st1 st2 o2 delta2) :
    StepOk (m + n) st st2 (o1 ++ o2) (delta1 ++ delta2) := by
  intro hw
  obtain ⟨w1, e1, l1⟩ := h1 hw
  obtain ⟨w2, e2, l2⟩ := h2 w1
  refine ⟨w2, ?_, ?_⟩
  · rw [downstreamTextOut_append, List.append_assoc, e2, ← List.append_assoc, e1,
      List.append_assoc]
  · calc st2.segments.length ≤ st1.segments.length + n := l2
      _ ≤ st.segments.length + m + n := Nat.add_le_add_right l1 n
      _ = st.segments.length + (m + n) := Nat.add_assoc _ _ _

theorem stepOk_push (st : CharacterTagger.State) (x : List Char) :
    StepOk 1 st (CharacterTagger.push_text st x).1 (CharacterTagger.push_text st x).2 x := by
  rintro ⟨htb, hue⟩
  cases hs : st.segments with
  | nil =>
    rw [push_text_eq_nil st x hs]
    refine ⟨⟨?_, ?_⟩, ?_, ?_⟩
    · intro s hsm; simp at hsm
    · intro s hsm _
      simp only [List.mem_singleton] at hsm
      subst hsm
      rfl
    · simp [downstreamTextOut, pendingText, concatAll, hs]
    · simp [hs]
  | cons a rest =>
    have hne : st.segments ≠ [] := by rw [hs]; exact List.cons_ne_nil a rest
    obtain ⟨xl, hxl⟩ := lastSegment_isSome hne
    cases hb : xl.buffered with
    | false =>
      have hsing := lastSegment_unbuffered_singleton htb hxl hb
      have htext : xl.text = [] := hue xl (lastSegment_mem hxl) hb
      rw [push_text_eq_unbuffered st x hxl hb]
      refine ⟨⟨htb, hue⟩, ?_, ?_⟩
      · have hp : pendingText st = [] := by
          simp only [pendingText, hsing, List.map_cons, List.map_nil]
          simp [concatAll, htext]
        rw [hp]
        simp [downstreamTextOut]
      · show st.segments.length ≤ (a :: rest).length + 1
        rw [hs]
        exact Nat.le_succ _
    | true =>
      rw [push_text_eq_buffered st x hxl hb]
      refine ⟨⟨?_, ?_⟩, ?_, ?_⟩
      · exact updateLast_tailBuffered x htb
      · exact updateLast_unbufferedEmpty x hue hxl hb
      · have hd : downstreamTextOut ([] : List (Frame × FrameDirection)) = [] := rfl
        rw [hd, List.nil_append]
        show pendingText { st with segments := CharacterTagger.updateLast st.segments x }
          = pendingText st ++ x
        simp only [pendingText]
        exact updateLast_pending x hne
      · show (CharacterTagger.updateLast st.segments x).length ≤ (a :: rest).length + 1
        rw [updateLast_length x st.segments, hs]
        exact Nat.le_succ _

theorem stepOk_create (st : CharacterTagger.State) (tg : List Char) :
    StepOk 1 st (CharacterTagger.create_segment { st with current_character := tg } tg).1
      (CharacterTagger.create_segment { st with current_character := tg } tg).2 [] := by
  obtain ⟨cur, segs⟩ := st
  rintro ⟨htb, hue⟩
  cases segs with
  | nil =>
    rw [create_segment_eq_nil ⟨tg, []⟩ tg rfl]
    refine ⟨⟨?_, ?_⟩, ?_, ?_⟩
    · intro s hsm; simp at hsm
    · intro s hsm _
      simp only [List.mem_singleton] at hsm
      subst hsm
      rfl
    · simp [downstreamTextOut, pendingText, concatAll]
    · simp
  | cons a rest =>
    rw [create_segment_eq_cons ⟨tg, a :: rest⟩ tg (List.cons_ne_nil a rest)]
    refine ⟨⟨?_, ?_⟩, ?_, ?_⟩
    · exact tailBuffered_append_buffered htb rfl
    · intro s hsm hbs
      rcases List.mem_append.mp hsm with hsm | hsm
      · exact hue s hsm hbs
      · rw [List.mem_singleton.mp hsm] at hbs
        simp at hbs
    · have hd : downstreamTextOut ([] : List (Frame × FrameDirection)) = [] := rfl
      rw [hd, List.nil_append, List.append_nil]
      simp only [pendingText, List.map_append, concatAll_append]
      simp [concatAll]
    · simp

theorem stepOk_if_push (st : CharacterTagger.State) (x : List Char) :
    StepOk 1 st ((if x ≠ [] then CharacterTagger.push_text st x else (st, [])).1)
      ((if x ≠ [] then CharacterTagger.push_text st x else (st, [])).2) x := by
  by_cases hx : x ≠ []
  · rw [if_pos hx]; exact stepOk_push st x
  · rw [if_neg hx]
    have he : x = [] := not_not.mp hx
    exact he ▸ stepOk_id 1 st

theorem stepOk_if_create (st : CharacterTagger.State) (tg : List Char)
    (c : Prop) [Decidable c] :
    StepOk 1 st
      ((if c then CharacterTagger.create_segment { st with current_character := tg } tg
        else (st, [])).1)
      ((if c then CharacterTagger.create_segment { st with current_character := tg } tg
        else (st, [])).2) [] := by
  by_cases hc : c
  · rw [if_pos hc]; exact stepOk_create st tg
  · rw [if_neg hc]; exact stepOk_id 1 st

theorem stepOk_token (st : CharacterTagger.State) (t : List Char) (d : FrameDirection) :
    StepOk 3 st (CharacterTagger.process_frame st (Frame.LLMTextFrame t) d).1
      (CharacterTagger.process_frame st (Frame.LLMTextFrame t) d).2 (stripTags t) := by
  rcases hsplit : lastTagSplit (firstLine t) with _ | ⟨pre, tg, post⟩
  · have hstrip : stripTags t = t := by simp [stripTags, hsplit]
    simp only [CharacterTagger.process_frame, hsplit, hstrip]
    exact stepOk_mono (by decide) (stepOk_push st t)
  · have hstrip : stripTags t = pre ++ post := by simp [stripTags, hsplit]
    simp only [CharacterTagger.process_frame, hsplit, hstrip]
    have s1 := stepOk_if_push st pre
    have s2 := stepOk_if_create
      ((if pre ≠ [] then CharacterTagger.push_text st pre else (st, [])).1) tg
      (tg ≠ [] ∧
        tg ≠ ((if pre ≠ [] then CharacterTagger.push_text st pre else (st, [])).1).current_character)
    have s3 := stepOk_if_push
      ((if tg ≠ [] ∧
            tg ≠ ((if pre ≠ [] then CharacterTagger.push_text st pre else (st, [])).1).current_character then
          CharacterTagger.create_segment
            { (if pre ≠ [] then CharacterTagger.push_text st pre else (st, [])).1 with
              current_character := tg } tg
        else ((if pre ≠ [] then CharacterTagger.push_text st pre else (st, [])).1, [])).1) post
    have hcomp := stepOk_comp (stepOk_comp s1 s2) s3
    rw [List.append_nil] at hcomp
    exact hcomp

theorem flush_eq_nil (st : CharacterTagger.State) (h : st.segments = []) :
    CharacterTagger.flush_character_segment st = (st, []) := by
  rcases st with ⟨c, segs⟩
  simp only [CharacterTagger.State.mk.injEq] at h
  subst h
  rfl

theorem flush_eq_unbuffered (st : CharacterTagger.State)
    {a : CharacterTagger.Segment} {rest : List CharacterTagger.Segment}
    (h : st.segments = a :: rest) (hb : a.buffered = false) :
    CharacterTagger.flush_character_segment st
      = ({ st with segments := rest },
         [(Frame.LLMFullResponseEndFrame, FrameDirection.DOWNSTREAM)]) := by
  rcases st with ⟨c, segs⟩
  simp only [CharacterTagger.State.mk.injEq] at h
  subst h
  simp [CharacterTagger.flush_character_segment, hb]

theorem flush_eq_buffered (st : CharacterTagger.State)
    {a : CharacterTagger.Segment} {rest : List CharacterTagger.Segment}
    (h : st.segments = a :: rest) (hb : a.buffered = true) :
    CharacterTagger.flush_character_segment st
      = ({ st with segments := rest },
         [(Frame.CharacterTagFrame a.character, FrameDirection.DOWNSTREAM),
          (Frame.LLMFullResponseStartFrame, FrameDirection.DOWNSTREAM),
          (Frame.LLMTextFrame a.text, FrameDirection.DOWNSTREAM),
          (Frame.LLMFullResponseEndFrame, FrameDirection.DOWNSTREAM)]) := by
  rcases st with ⟨c, segs⟩
  simp only [CharacterTagger.State.mk.injEq] at h
  subst h
  simp [CharacterTagger.flush_character_segment, hb]

theorem flush_relation (st : CharacterTagger.State) (hw : WFsegs st.segments) :
    WFsegs (CharacterTagger.flush_character_segment st).1.segments ∧
    downstreamTextOut (CharacterTagger.flush_character_segment st).2
        ++ pendingText (CharacterTagger.flush_character_segment st).1
      = pendingText st := by
  obtain ⟨htb, hue⟩ := hw
  cases hs : st.segments with
  | nil =>
    rw [flush_eq_nil st hs]
    exact ⟨⟨htb, hue⟩, by simp [downstreamTextOut]⟩
  | cons a rest =>
    have hwrest : WFsegs rest := by
      constructor
      · intro s hsm
        apply htb
        rw [hs]
        exact List.mem_of_mem_tail hsm
      · intro s hsm hbs
        apply hue s _ hbs
        rw [hs]
        exact List.mem_cons_of_mem a hsm
    cases hb : a.buffered with
    | false =>
      have ha : a.text = [] := by
        apply hue a _ hb
        rw [hs]
        exact List.mem_cons_self a rest
      rw [flush_eq_unbuffered st hs hb]
      refine ⟨hwrest, ?_⟩
      have hd : downstreamTextOut
          [(Frame.LLMFullResponseEndFrame, FrameDirection.DOWNSTREAM)] = [] := rfl
      rw [hd, List.nil_append]
      simp [pendingText, hs, concatAll, ha]
    | true =>
      rw [flush_eq_buffered st hs hb]
      refine ⟨hwrest, ?_⟩
      have hd : downstreamTextOut
          [(Frame.CharacterTagFrame a.character, FrameDirection.DOWNSTREAM),
           (Frame.LLMFullResponseStartFrame, FrameDirection.DOWNSTREAM),
           (Frame.LLMTextFrame a.text, FrameDirection.DOWNSTREAM),
           (Frame.LLMFullResponseEndFrame, FrameDirection.DOWNSTREAM)]
          = a.text := by simp [downstreamTextOut]
      rw [hd]
      simp [pendingText, hs, concatAll]

theorem release_phase :
    ∀ (k : Nat) (st : CharacterTagger.State), WFsegs st.segments →
      st.segments.length ≤ k →
      downstreamTextOut (runTagger st (List.replicate k
          (Frame.NextCharacterSequenceFrame, FrameDirection.UPSTREAM))).2
        = pendingText st := by
  intro k
  induction k with
  | zero =>
    intro st _ hl
    have hz : st.segments = [] := List.length_eq_zero.mp (Nat.le_zero.mp hl)
    simp [runTagger, downstreamTextOut, pendingText, hz, concatAll]
  | succ k ih =>
    intro st hw hl
    rw [List.replicate_succ]
    obtain ⟨w1, e1⟩ := flush_relation st hw
    have hlen : (CharacterTagger.flush_character_segment st).1.segments.length ≤ k := by
      rw [flush_segments_tail]
      have := List.length_tail st.segments
      omega
    have ihx := ih (CharacterTagger.flush_character_segment st).1 w1 hlen
    simp only [runTagger]
    have hpr : (CharacterTagger.process_frame st Frame.NextCharacterSequenceFrame
          FrameDirection.UPSTREAM).2
        = (CharacterTagger.flush_character_segment st).2
          ++ [(Frame.NextCharacterSequenceFrame, FrameDirection.UPSTREAM)] := rfl
    have hps : (CharacterTagger.process_frame st Frame.NextCharacterSequenceFrame
          FrameDirection.UPSTREAM).1
        = (CharacterTagger.flush_character_segment st).1 := rfl
    rw [downstreamTextOut_append, hpr, hps, downstreamTextOut_append, ihx]
    have hrel : downstreamTextOut
        [(Frame.NextCharacterSequenceFrame, FrameDirection.UPSTREAM)] = [] := rfl
    rw [hrel, List.append_nil, e1]

theorem token_phase (ts : List (List Char)) :
    ∀ st : CharacterTagger.State, WFsegs st.segments →
      WFsegs (runTagger st (ts.map fun t =>
          (Frame.LLMTextFrame t, FrameDirection.DOWNSTREAM))).1.segments ∧
      downstreamTextOut (runTagger st (ts.map fun t =>
            (Frame.LLMTextFrame t, FrameDirection.DOWNSTREAM))).2
          ++ pendingText (runTagger st (ts.map fun t =>
            (Frame.LLMTextFrame t, FrameDirection.DOWNSTREAM))).1
        = pendingText st ++ concatAll (ts.map stripTags) ∧
      (runTagger st (ts.map fun t =>
          (Frame.LLMTextFrame t, FrameDirection.DOWNSTREAM))).1.segments.length
        ≤ st.segments.length + 3 * ts.length := by
  induction ts with
  | nil =>
    intro st hw
    refine ⟨hw, ?_, by simp [runTagger]⟩
    simp [runTagger, downstreamTextOut, concatAll]
  | cons t rest ih =>
    intro st hw
    obtain ⟨w1, e1, l1⟩ := stepOk_token st t FrameDirection.DOWNSTREAM hw
    obtain ⟨w2, e2, l2⟩ :=
      ih (CharacterTagger.process_frame st (Frame.LLMTextFrame t) FrameDirection.DOWNSTREAM).1 w1
    simp only [List.map_cons, runTagger]
    refine ⟨w2, ?_, ?_⟩
    · rw [downstreamTextOut_append, List.append_assoc, e2, ← List.append_assoc, e1,
        List.append_assoc]
      rfl
    · simp only [List.length_cons]
      omega

theorem lastTagSplit_cons_none {c : Char} {cs : List Char}
    (h : lastTagSplit (c :: cs) = none) :
    lastTagSplit cs = none ∧
    ¬(c = 'A' ∧ cs.head? = some 'A') ∧ ¬(c = 'B' ∧ cs.head? = some 'B') := by
  rcases hcs : lastTagSplit cs with _ | ⟨pre, tg, post⟩
  · simp only [lastTagSplit, hcs] at h
    cases cs with
    | nil =>
      refine ⟨rfl, ?_, ?_⟩ <;> rintro ⟨_, hh⟩ <;> cases hh
    | cons c2 rest =>
      have h' : (if c = 'A' ∧ c2 = 'A' then some (([] : List Char), AAtag, rest)
          else if c = 'B' ∧ c2 = 'B' then some (([] : List Char), BBtag, rest)
          else none) = none := h
      split_ifs at h' with h1 h2
      refine ⟨rfl, ?_, ?_⟩
      · rintro ⟨hc, hh⟩
        simp only [List.head?_cons, Option.some.injEq] at hh
        exact h1 ⟨hc, hh⟩
      · rintro ⟨hc, hh⟩
        simp only [List.head?_cons, Option.some.injEq] at hh
        exact h2 ⟨hc, hh⟩
  · simp only [lastTagSplit, hcs] at h
    cases h

theorem removeTags_cons_cons {c c2 : Char} (X : List Char)
    (h1 : ¬(c = 'A' ∧ c2 = 'A')) (h2 : ¬(c = 'B' ∧ c2 = 'B')) :
    removeTags (c :: c2 :: X) = c :: removeTags (c2 :: X) := by
  simp only [removeTags]
  rw [if_neg h1, if_neg h2]

theorem removeTags_tag_cons {a : Char} (ha : a = 'A' ∨ a = 'B') (X : List Char) :
    removeTags (a :: a :: X) = removeTags X := by
  rcases ha with rfl | rfl <;> simp [removeTags]

theorem removeTags_of_none_aux :
    ∀ (n : Nat) (l : List Char), l.length ≤ n → lastTagSplit l = none →
      removeTags l = l := by
  intro n
  induction n with
  | zero =>
    intro l hl _
    cases l with
    | nil => rfl
    | cons c cs => simp at hl
  | succ n ih =>
    intro l hl h
    cases l with
    | nil => rfl
    | cons c cs =>
      obtain ⟨hcs, hA, hB⟩ := lastTagSplit_cons_none h
      cases cs with
      | nil => rfl
      | cons c2 rest =>
        have hcond1 : ¬(c = 'A' ∧ c2 = 'A') := by
          rintro ⟨e1, e2⟩
          exact hA ⟨e1, by rw [e2]; rfl⟩
        have hcond2 : ¬(c = 'B' ∧ c2 = 'B') := by
          rintro ⟨e1, e2⟩
          exact hB ⟨e1, by rw [e2]; rfl⟩
        rw [removeTags_cons_cons rest hcond1 hcond2]
        rw [ih (c2 :: rest) (by simp only [List.length_cons] at hl ⊢; omega) hcs]

theorem removeTags_of_none {l : List Char} (h : lastTagSplit l = none) :
    removeTags l = l :=
  removeTags_of_none_aux l.length l (le_refl _) h

theorem lastTagSplit_some :
    ∀ {l p tg q : List Char}, lastTagSplit l = some (p, tg, q) →
      l = p ++ tg ++ q ∧
      ((tg = AAtag ∧ lastTagSplit ('A' :: q) = none)
        ∨ (tg = BBtag ∧ lastTagSplit ('B' :: q) = none)) := by
  intro l
  induction l with
  | nil => intro p tg q h; cases h
  | cons c cs ih =>
    intro p tg q h
    rcases hcs : lastTagSplit cs with _ | ⟨p', tg', q'⟩
    · simp only [lastTagSplit, hcs] at h
      cases cs with
      | nil => cases h
      | cons c2 rest =>
        have h' : (if c = 'A' ∧ c2 = 'A' then some (([] : List Char), AAtag, rest)
            else if c = 'B' ∧ c2 = 'B' then some (([] : List Char), BBtag, rest)
            else none) = some (p, tg, q) := h
        split_ifs at h' with h1 h2
        · obtain ⟨rfl, rfl⟩ := h1
          simp only [Option.some.injEq, Prod.mk.injEq] at h'
          obtain ⟨rfl, rfl, rfl⟩ := h'
          exact ⟨rfl, Or.inl ⟨rfl, hcs⟩⟩
        · obtain ⟨rfl, rfl⟩ := h2
          simp only [Option.some.injEq, Prod.mk.injEq] at h'
          obtain ⟨rfl, rfl, rfl⟩ := h'
          exact ⟨rfl, Or.inr ⟨rfl, hcs⟩⟩
    · simp only [lastTagSplit, hcs] at h
      simp only [Option.some.injEq, Prod.mk.injEq] at h
      obtain ⟨rfl, rfl, rfl⟩ := h
      obtain ⟨hl, hR⟩ := ih hcs
      constructor
      · rw [hl]
        rfl
      · exact hR

theorem removeTags_split (a : Char) (ha : a = 'A' ∨ a = 'B') :
    ∀ (p q : List Char), lastTagSplit p = none → lastTagSplit (a :: q) = none →
      removeTags (p ++ a :: a :: q) = p ++ q := by
  intro p
  induction p with
  | nil =>
    intro q _ hq
    obtain ⟨hq1, _, _⟩ := lastTagSplit_cons_none hq
    show removeTags (a :: a :: q) = q
    rw [removeTags_tag_cons ha q, removeTags_of_none hq1]
  | cons c p' ih =>
    intro q hp hq
    obtain ⟨hp1, hpA, hpB⟩ := lastTagSplit_cons_none hp
    cases p' with
    | nil =>
      by_cases hca : c = a
      · subst hca
        show removeTags (c :: c :: c :: q) = c :: q
        rw [removeTags_tag_cons ha (c :: q), removeTags_of_none hq]
      · have hcond1 : ¬(c = 'A' ∧ a = 'A') := by
          rintro ⟨e1, e2⟩
          exact hca (e1.trans e2.symm)
        have hcond2 : ¬(c = 'B' ∧ a = 'B') := by
          rintro ⟨e1, e2⟩
          exact hca (e1.trans e2.symm)
        show removeTags (c :: a :: a :: q) = c :: q
        rw [removeTags_cons_cons (a :: q) hcond1 hcond2]
        have h0 : removeTags (a :: a :: q) = q := by
          rw [removeTags_tag_cons ha q, removeTags_of_none]
          exact (lastTagSplit_cons_none hq).1
        rw [h0]
    | cons c2 p'' =>
      have hcond1 : ¬(c = 'A' ∧ c2 = 'A') := by
        rintro ⟨e1, e2⟩
        exact hpA ⟨e1, by rw [e2]; rfl⟩
      have hcond2 : ¬(c = 'B' ∧ c2 = 'B') := by
        rintro ⟨e1, e2⟩
        exact hpB ⟨e1, by rw [e2]; rfl⟩
      show removeTags (c :: ((c2 :: p'') ++ a :: a :: q)) = c :: ((c2 :: p'') ++ q)
      have hshape : (c2 :: p'') ++ a :: a :: q = c2 :: (p'' ++ a :: a :: q) := rfl
      rw [hshape, removeTags_cons_cons (p'' ++ a :: a :: q) hcond1 hcond2]
      have h0 : removeTags (c2 :: (p'' ++ a :: a :: q)) = c2 :: (p'' ++ q) := ih q hp1 hq
      rw [h0]
      rfl

theorem firstLine_eq_self : ∀ {t : List Char}, '\n' ∉ t → firstLine t = t := by
  intro t
  induction t with
  | nil => intro _; rfl
  | cons c cs ih =>
    intro h
    have hc : ¬(c = '\n') := fun e => h (by rw [← e]; exact List.mem_cons_self c cs)
    simp only [firstLine]
    rw [if_neg hc, ih (fun hm => h (List.mem_cons_of_mem c hm))]

theorem stripTags_eq_removeTags {t : List Char} (h : goodToken t = true) :
    stripTags t = removeTags t := by
  simp only [goodToken, Bool.and_eq_true, Bool.not_eq_true'] at h
  have hm : '\n' ∉ t := of_decide_eq_false h.1
  have hfl : firstLine t = t := firstLine_eq_self hm
  rcases hs : lastTagSplit t with _ | ⟨p, tg, q⟩
  · have he : stripTags t = t := by simp [stripTags, hfl, hs]
    rw [he, removeTags_of_none hs]
  · have h2 := h.2
    rw [hs] at h2
    have hpnone : lastTagSplit p = none := by
      have hgood : tagFree p = true := h2
      simp only [tagFree, Option.isNone_iff_eq_none] at hgood
      exact hgood
    obtain ⟨hl, hR⟩ := lastTagSplit_some hs
    have hstrip : stripTags t = p ++ q := by simp [stripTags, hfl, hs]
    rw [hstrip, hl]
    rcases hR with ⟨rfl, hq⟩ | ⟨rfl, hq⟩
    · rw [List.append_assoc]
      exact (removeTags_split 'A' (Or.inl rfl) p q hpnone hq).symm
    · rw [List.append_assoc]
      exact (removeTags_split 'B' (Or.inr rfl) p q hpnone hq).symm

theorem run_end_and_releases (st : CharacterTagger.State) (k : Nat)
    (hw : WFsegs st.segments) (hl : st.segments.length ≤ k + 1) :
    downstreamTextOut (runTagger st
        ((Frame.LLMFullResponseEndFrame, FrameDirection.DOWNSTREAM)
          :: List.replicate k (Frame.NextCharacterSequenceFrame, FrameDirection.UPSTREAM))).2
      = pendingText st := by
  obtain ⟨w1, e1⟩ := flush_relation st hw
  have hlen : (CharacterTagger.flush_character_segment st).1.segments.length ≤ k := by
    rw [flush_segments_tail]
    have := List.length_tail st.segments
    omega
  have e2 := release_phase k (CharacterTagger.flush_character_segment st).1 w1 hlen
  simp only [runTagger]
  rw [downstreamTextOut_append]
  have hp2 : (CharacterTagger.process_frame st Frame.LLMFullResponseEndFrame
        FrameDirection.DOWNSTREAM).2
      = (CharacterTagger.flush_character_segment st).2 := rfl
  have hp1 : (CharacterTagger.process_frame st Frame.LLMFullResponseEndFrame
        FrameDirection.DOWNSTREAM).1
      = (CharacterTagger.flush_character_segment st).1 := rfl
  rw [hp2, hp1, e2, e1]

/-- C3 counterexample: the round-trip claim is false as stated.  The
token "AA Hi\nthere" matches the tag regex only on its first line, so
the text "\nthere" after the newline is silently dropped — the
concatenated emitted text " Hi" differs from the input with tag markers
removed (" Hi\nthere"). -/
theorem c3_counterexample :
    downstreamTextOut (runTagger CharacterTagger.initState
        (responseTrace ["AA Hi\nthere".data] 4)).2
      ≠ removeTags "AA Hi\nthere".data := by
  decide

/-- C3 as it holds on the code: for a response whose tokens are
well-behaved — no newline and at most one tag occurrence per token —
concatenating the text of all segments the Tagger emits downstream, in
emission order, equals the concatenation of the input token texts with
the tag markers removed.  (Enough release signals are supplied to flush
every held segment.) -/
theorem c3_amended_roundtrip (ts : List (List Char))
    (h : ∀ t ∈ ts, goodToken t = true) :
    downstreamTextOut (runTagger CharacterTagger.initState
        (responseTrace ts (3 * ts.length + 1))).2
      = concatAll (ts.map removeTags) := by
  have hmap : List.map stripTags ts = List.map removeTags ts :=
    List.map_congr_left (fun t ht => stripTags_eq_removeTags (h t ht))
  have hwinit : WFsegs CharacterTagger.initState.segments :=
    ⟨fun s hs => absurd hs (List.not_mem_nil s),
     fun s hs _ => absurd hs (List.not_mem_nil s)⟩
  obtain ⟨w1, e1, l1⟩ := token_phase ts CharacterTagger.initState hwinit
  have hrun_end := run_end_and_releases
    (runTagger CharacterTagger.initState (ts.map fun t =>
        (Frame.LLMTextFrame t, FrameDirection.DOWNSTREAM))).1
    (3 * ts.length + 1) w1
    (by have ha : CharacterTagger.initState.segments.length = 0 := rfl; omega)
  simp only [responseTrace, List.append_assoc, List.singleton_append]
  simp only [runTagger]
  have h0 : CharacterTagger.process_frame CharacterTagger.initState
      Frame.LLMFullResponseStartFrame FrameDirection.DOWNSTREAM
      = (CharacterTagger.initState, []) := rfl
  rw [h0]
  simp only [List.append_eq]
  rw [downstreamTextOut_append]
  have hd0 : downstreamTextOut
      ((CharacterTagger.initState, ([] : List (Frame × FrameDirection))).2) = [] := rfl
  rw [hd0, List.nil_append]
  rw [runTagger_append, downstreamTextOut_append, hrun_end, e1]
  have hpinit : pendingText CharacterTagger.initState = [] := rfl
  rw [hpinit, List.nil_append, hmap]

theorem c3_witness :
    (∀ t ∈ ([("AA Hi".data : List Char)] : List (List Char)), goodToken t = true) ∧
    downstreamTextOut (runTagger CharacterTagger.initState
        (responseTrace [("AA Hi".data : List Char)] 4)).2
      = concatAll (([("AA Hi".data : List Char)] : List (List Char)).map removeTags) :=
  ⟨by decide, c3_amended_roundtrip ["AA Hi".data] (by decide)⟩
